import Mathlib

/-!
Verification of the buck2 target-alias resolver (`app/buck2_common/src/target_aliases.rs`).

The resolver follows chains of aliases declared in the `[alias]` section of a
buckconfig until it reaches a value containing `:` (a target reference), while
detecting cycles and dangling chains with an insertion-ordered visited set.
We embed the section as an association list (`List (String × String)`), the
insertion-ordered `IndexSet` stack as a `List String` (appending on insert,
which is exactly `IndexSet::insert` on a fresh element), and the chain-following
loop as a fuel-indexed function `resolveLoopF` returning `none` when fuel runs
out; `resolveLoopF_isSome_of_le` proves that fuel `numAliasKeys + 1` always
suffices, so `resolve_alias` never takes its default branch.
-/

set_option autoImplicit false

/-- The `[alias]` section of a buckconfig: insertion-ordered mapping from alias
name to raw string value. -/
abbrev AliasSection := List (String × String)

/-- `AliasResolutionError` from `target_aliases.rs`. -/
inductive AliasResolutionError where
  | MissingAliasSection : AliasResolutionError
  | NotAnAlias : AliasResolutionError
  | AliasChainBroken : List String → AliasResolutionError
  | AliasCycle : List String → String → AliasResolutionError
  deriving DecidableEq, Repr

/-- Rust `str::contains(':')`: whether the string has a colon character. -/
def strHasColon (s : String) : Bool := s.data.contains ':'

/-- The key list of the (optional) alias section. -/
def aliasKeys : Option AliasSection → List String
  | none => []
  | some sec => sec.map Prod.fst

/-- Number of distinct alias names defined in the (optional) section. -/
def numAliasKeys (sec? : Option AliasSection) : Nat := (aliasKeys sec?).dedup.length

/-- The chain-following loop of `resolve_alias`, with explicit fuel.
Each iteration mirrors one pass of the Rust `loop`:
cycle check against the visited `stack`, lookup of the current name in the
section (absent section reports `MissingAliasSection`; an undefined name
reports `NotAnAlias` on an empty stack and `AliasChainBroken` otherwise),
then either terminate on a value containing `:` or record the current name
and continue with the value. `none` means the fuel ran out. -/
def resolveLoopF (sec? : Option AliasSection) :
    Nat → List String → String → Option (Except AliasResolutionError String)
  | 0, _, _ => none
  | fuel + 1, stack, cur =>
    if stack.contains cur then
      some (.error (.AliasCycle stack cur))
    else
      match sec? with
      | none => some (.error .MissingAliasSection)
      | some sec =>
        match List.lookup cur sec with
        | some v =>
          if strHasColon v then
            some (.ok v)
          else
            resolveLoopF sec? fuel (stack ++ [cur]) v
        | none =>
          if stack.isEmpty then
            some (.error .NotAnAlias)
          else
            some (.error (.AliasChainBroken (stack ++ [cur])))

/-- `BuckConfigTargetAliasResolver::resolve_alias`: reject names already
containing `:` as `NotAnAlias`, then run the chain-following loop starting
from an empty visited stack. Fuel `numAliasKeys sec? + 1` is always enough
(`resolveLoopF_isSome_of_le` below), so the `getD` default is dead code. -/
def resolve_alias (sec? : Option AliasSection) (a : String) :
    Except AliasResolutionError String :=
  if strHasColon a then
    .error .NotAnAlias
  else
    (resolveLoopF sec? (numAliasKeys sec? + 1) [] a).getD (.error .NotAnAlias)

/-- The `[alias]` section of §8 of the spec (also the section in `test_aliases`). -/
def exampleSection : AliasSection :=
  [("baz", "foo"), ("foo", "//:foo"), ("bar", "foo"), ("bar2", "bar"),
   ("cycle1", "cycle2"), ("cycle2", "cycle3"), ("cycle3", "cycle1"),
   ("chain1", "chain2"), ("chain2", "chain3")]

/-- The chain-following loop again, instrumented with a counter `n` of section
lookups performed so far: every call to `section.get` (successful or not)
increments the counter. The result component behaves exactly as `resolveLoopF`
(`resolveLoopC_fst` below). -/
def resolveLoopC (sec? : Option AliasSection) :
    Nat → List String → String → Nat → Option (Except AliasResolutionError String × Nat)
  | 0, _, _, _ => none
  | fuel + 1, stack, cur, n =>
    if stack.contains cur then
      some (.error (.AliasCycle stack cur), n)
    else
      match sec? with
      | none => some (.error .MissingAliasSection, n)
      | some sec =>
        match List.lookup cur sec with
        | some v =>
          if strHasColon v then
            some (.ok v, n + 1)
          else
            resolveLoopC sec? fuel (stack ++ [cur]) v (n + 1)
        | none =>
          if stack.isEmpty then
            some (.error .NotAnAlias, n + 1)
          else
            some (.error (.AliasChainBroken (stack ++ [cur])), n + 1)

/-- `resolve_alias` together with the number of section lookups it performs. -/
def resolveAliasCount (sec? : Option AliasSection) (a : String) :
    Except AliasResolutionError String × Nat :=
  if strHasColon a then
    (.error .NotAnAlias, 0)
  else
    (resolveLoopC sec? (numAliasKeys sec? + 1) [] a 0).getD (.error .NotAnAlias, 0)

/-- `Links sec chain v`: consecutive elements of `chain` are linked by the
section (the value of each name is the next name) and the value of the last
name is `v`. -/
def Links (sec : AliasSection) : List String → String → Prop
  | [], _ => False
  | [a], v => List.lookup a sec = some v
  | a :: b :: rest, v => List.lookup a sec = some b ∧ Links sec (b :: rest) v

/-- A well-formed acyclic alias chain with terminal value `v`: the visited
names are pairwise distinct, none of them is a target reference (no `:`),
consecutive names are linked by the section, and the value of the last name
is the target reference `v`. -/
def WFChain (sec : AliasSection) (chain : List String) (v : String) : Prop :=
  chain.Nodup ∧ (∀ a ∈ chain, strHasColon a = false) ∧
    Links sec chain v ∧ strHasColon v = true

/-- The `thiserror` `Display` rendering of each `AliasResolutionError`
(`#[error(...)]` attributes in `target_aliases.rs`; `.iter().join(" -> ")`
is `String.intercalate " -> "`). -/
def renderError : AliasResolutionError → String
  | .MissingAliasSection => "No [alias] section in buckconfig"
  | .NotAnAlias => "[alias] section does not contain the requested alias"
  | .AliasChainBroken chain =>
      "[alias] section produced a dangling chain: `" ++
        String.intercalate " -> " chain ++ "`"
  | .AliasCycle chain repeated =>
      "cycle detected in alias resolution [" ++
        String.intercalate " -> " chain ++ " -> " ++ repeated ++ "]"

/-- `pat` occurs as a contiguous substring of `s`. -/
def ContainsSubstr (s pat : String) : Prop := ∃ u w, s = u ++ pat ++ w

/-- A buckconfig snapshot, as far as this module observes it: a mapping from
section name to section content (`LegacyBuckConfig::get_section`). -/
structure LegacyBuckConfig where
  sections : List (String × AliasSection)

/-- `LegacyBuckConfig::get_section`. -/
def LegacyBuckConfig.get_section (c : LegacyBuckConfig) (name : String) :
    Option AliasSection :=
  List.lookup name c.sections

/-- `BuckConfigTargetAliasResolver`: an immutable wrapper over one
configuration snapshot. -/
structure BuckConfigTargetAliasResolver where
  config : LegacyBuckConfig

/-- `BuckConfigTargetAliasResolver::resolve_alias` reads the `[alias]` section
of the wrapped configuration and runs the chain-following algorithm. -/
def BuckConfigTargetAliasResolver.resolveAlias
    (r : BuckConfigTargetAliasResolver) (a : String) :
    Except AliasResolutionError String :=
  resolve_alias (r.config.get_section "alias") a

/-- Result of the public `TargetAliasResolver::get`, which has type
`anyhow::Result<Option<&str>>`: `okNone` is `Ok(None)`, `okSome t` is
`Ok(Some(t))`, and `errWrapped c e` is `Err(anyhow::Error::from(e).context(c))`
— the underlying resolution error wrapped with contextual text `c`. -/
inductive GetResult where
  | okNone : GetResult
  | okSome : String → GetResult
  | errWrapped : String → AliasResolutionError → GetResult
  deriving DecidableEq, Repr

/-- `TargetAliasResolver::get for BuckConfigTargetAliasResolver`:
soft errors (`MissingAliasSection`, `NotAnAlias`) become `Ok(None)`, success
becomes `Ok(Some(_))`, and `AliasChainBroken`/`AliasCycle` are returned as
errors wrapped with the context `format!("Error resolving alias `{}`", name)`. -/
def TargetAliasResolver.get (r : BuckConfigTargetAliasResolver) (name : String) :
    GetResult :=
  match r.resolveAlias name with
  | .ok a => .okSome a
  | .error .MissingAliasSection => .okNone
  | .error .NotAnAlias => .okNone
  | .error (.AliasChainBroken chain) =>
      .errWrapped ("Error resolving alias `" ++ name ++ "`") (.AliasChainBroken chain)
  | .error (.AliasCycle chain repeated) =>
      .errWrapped ("Error resolving alias `" ++ name ++ "`") (.AliasCycle chain repeated)

/-- Modelled from the spec: `LegacyBuckConfigSection::compare`, called by
`PartialEq for BuckConfigTargetAliasResolver`, is not among the provided
sources. Per the spec (§4.2), it compares the alias-section content — key set
and values, order-independent for equality. -/
def sectionCompare (x y : AliasSection) : Bool :=
  (x.map Prod.fst ++ y.map Prod.fst).all fun k =>
    List.lookup k x == List.lookup k y

/-- `PartialEq::eq for BuckConfigTargetAliasResolver`: compare only the
`alias` sections of the two underlying configurations. -/
def resolverEq (a b : BuckConfigTargetAliasResolver) : Bool :=
  match a.config.get_section "alias", b.config.get_section "alias" with
  | some x, some y => sectionCompare x y
  | none, none => true
  | none, some _ => false
  | some _, none => false

/-- Extensional equality of two optional alias sections: both absent, or both
present and agreeing on the value of every key. -/
def SectionEquiv : Option AliasSection → Option AliasSection → Prop
  | some x, some y => ∀ k, List.lookup k x = List.lookup k y
  | none, none => True
  | _, _ => False

/-- `TargetAliasResolverKey::equality`, the custom equality the incremental
engine uses for invalidation propagation on the cached
`SharedResult<BuckConfigTargetAliasResolver>` value (`ε` stands for the shared
error type). -/
def TargetAliasResolverKey.equality {ε : Type}
    (x y : Except ε BuckConfigTargetAliasResolver) : Bool :=
  match x, y with
  | .ok a, .ok b => resolverEq a b
  | _, _ => false


/-! ## Helper lemmas -/

theorem lookup_eq_none_iff_not_mem_keys (sec : AliasSection) (k : String) :
    List.lookup k sec = none ↔ k ∉ sec.map Prod.fst := by
  induction sec with
  | nil => simp
  | cons p rest ih =>
    obtain ⟨k', v'⟩ := p
    by_cases hb : k = k'
    · subst hb
      simp [List.lookup_cons]
    · have hbeq : (k == k') = false := beq_eq_false_iff_ne.mpr hb
      simp [List.lookup_cons, hbeq, ih, hb]

theorem mem_keys_of_lookup_eq_some {sec : AliasSection} {k v : String}
    (h : List.lookup k sec = some v) : k ∈ sec.map Prod.fst := by
  by_contra hn
  have hnone := (lookup_eq_none_iff_not_mem_keys sec k).mpr hn
  rw [h] at hnone
  exact Option.noConfusion hnone

theorem nodup_length_le_dedup {α : Type} [DecidableEq α] (l l' : List α)
    (hnd : l.Nodup) (hsub : ∀ x ∈ l, x ∈ l') : l.length ≤ l'.dedup.length := by
  have h1 : l.toFinset.card = l.length := List.toFinset_card_of_nodup hnd
  have h2 : l.toFinset ⊆ l'.toFinset := by
    intro x hx
    simp only [List.mem_toFinset] at hx ⊢
    exact hsub x hx
  have h3 := Finset.card_le_card h2
  rwa [h1, List.card_toFinset] at h3

theorem resolveLoopF_isSome_of_le (sec? : Option AliasSection) :
    ∀ (fuel : Nat) (stack : List String) (cur : String),
      stack.Nodup → (∀ x ∈ stack, x ∈ aliasKeys sec?) →
      numAliasKeys sec? + 1 ≤ stack.length + fuel →
      (resolveLoopF sec? fuel stack cur).isSome = true := by
  intro fuel
  induction fuel with
  | zero =>
    intro stack cur hnd hsub hle
    have hlen := nodup_length_le_dedup stack (aliasKeys sec?) hnd hsub
    unfold numAliasKeys at hle
    omega
  | succ fuel ih =>
    intro stack cur hnd hsub hle
    by_cases hc : cur ∈ stack
    · simp [resolveLoopF, hc]
    · cases hsec : sec? with
      | none => simp [resolveLoopF, hc]
      | some sec =>
        subst hsec
        cases hl : List.lookup cur sec with
        | none =>
          cases he : stack.isEmpty <;> simp [resolveLoopF, hc, hl, he]
        | some v =>
          cases hv : strHasColon v with
          | true => simp [resolveLoopF, hc, hl, hv]
          | false =>
            have hstep : resolveLoopF (some sec) (fuel + 1) stack cur =
                resolveLoopF (some sec) fuel (stack ++ [cur]) v := by
              simp [resolveLoopF, hc, hl, hv]
            rw [hstep]
            apply ih
            · simp [List.nodup_append, hnd, hc]
            · intro x hx
              rcases List.mem_append.mp hx with hx | hx
              · exact hsub x hx
              · have hx' : x = cur := by simpa using hx
                subst hx'
                simpa [aliasKeys] using mem_keys_of_lookup_eq_some hl
            · simp only [List.length_append, List.length_singleton]
              omega

theorem resolveLoopC_fst (sec? : Option AliasSection) :
    ∀ (fuel : Nat) (stack : List String) (cur : String) (n : Nat),
      (resolveLoopC sec? fuel stack cur n).map Prod.fst =
        resolveLoopF sec? fuel stack cur := by
  intro fuel
  induction fuel with
  | zero => intro stack cur n; rfl
  | succ fuel ih =>
    intro stack cur n
    by_cases hc : cur ∈ stack
    · simp [resolveLoopC, resolveLoopF, hc]
    · cases hsec : sec? with
      | none => simp [resolveLoopC, resolveLoopF, hc]
      | some sec =>
        subst hsec
        cases hl : List.lookup cur sec with
        | none =>
          cases he : stack.isEmpty <;> simp [resolveLoopC, resolveLoopF, hc, hl, he]
        | some v =>
          cases hv : strHasColon v with
          | true => simp [resolveLoopC, resolveLoopF, hc, hl, hv]
          | false => simp [resolveLoopC, resolveLoopF, hc, hl, hv, ih]

theorem resolveLoopF_top_some (sec? : Option AliasSection) (a : String) :
    ∃ r, resolveLoopF sec? (numAliasKeys sec? + 1) [] a = some r := by
  have h := resolveLoopF_isSome_of_le sec? (numAliasKeys sec? + 1) [] a List.nodup_nil
    (by intro x hx; cases hx) (by simp)
  exact Option.isSome_iff_exists.mp h

theorem resolve_alias_eq_of_loop {sec? : Option AliasSection} {a : String}
    {r : Except AliasResolutionError String}
    (hcolon : strHasColon a = false)
    (h : resolveLoopF sec? (numAliasKeys sec? + 1) [] a = some r) :
    resolve_alias sec? a = r := by
  rw [resolve_alias, if_neg (by simp [hcolon]), h, Option.getD_some]

theorem resolveAliasCount_eq_of_loop {sec? : Option AliasSection} {a : String}
    {r : Except AliasResolutionError String × Nat}
    (hcolon : strHasColon a = false)
    (h : resolveLoopC sec? (numAliasKeys sec? + 1) [] a 0 = some r) :
    resolveAliasCount sec? a = r := by
  rw [resolveAliasCount, if_neg (by simp [hcolon]), h, Option.getD_some]

theorem resolveAliasCount_fst (sec? : Option AliasSection) (a : String) :
    (resolveAliasCount sec? a).1 = resolve_alias sec? a := by
  by_cases hcolon : strHasColon a = true
  · rw [resolveAliasCount, resolve_alias, if_pos hcolon, if_pos hcolon]
  · obtain ⟨r, hr⟩ := resolveLoopF_top_some sec? a
    have hC := resolveLoopC_fst sec? (numAliasKeys sec? + 1) [] a 0
    rw [hr] at hC
    cases hq : resolveLoopC sec? (numAliasKeys sec? + 1) [] a 0 with
    | none => rw [hq] at hC; exact Option.noConfusion hC
    | some p =>
      rw [hq] at hC
      have hp1 : p.1 = r := by simpa using hC
      rw [resolveAliasCount, resolve_alias, if_neg hcolon, if_neg hcolon, hq, hr,
        Option.getD_some, Option.getD_some, hp1]

theorem resolveLoopF_ne_notAnAlias (sec? : Option AliasSection) :
    ∀ (fuel : Nat) (stack : List String) (cur : String),
      stack ≠ [] →
      resolveLoopF sec? fuel stack cur ≠ some (.error .NotAnAlias) := by
  intro fuel
  induction fuel with
  | zero => intro stack cur hne h; exact Option.noConfusion h
  | succ fuel ih =>
    intro stack cur hne
    by_cases hc : cur ∈ stack
    · simp [resolveLoopF, hc]
    · cases hsec : sec? with
      | none => simp [resolveLoopF, hc]
      | some sec =>
        subst hsec
        cases hl : List.lookup cur sec with
        | none =>
          have he : stack.isEmpty = false := by
            cases stack with
            | nil => exact absurd rfl hne
            | cons x xs => rfl
          simp [resolveLoopF, hc, hl, he]
        | some v =>
          cases hv : strHasColon v with
          | true => simp [resolveLoopF, hc, hl, hv]
          | false =>
            have hstep : resolveLoopF (some sec) (fuel + 1) stack cur =
                resolveLoopF (some sec) fuel (stack ++ [cur]) v := by
              simp [resolveLoopF, hc, hl, hv]
            rw [hstep]
            exact ih (stack ++ [cur]) v (by simp)

theorem links_mem_keys (sec : AliasSection) :
    ∀ (chain : List String) (v : String), Links sec chain v →
      ∀ x ∈ chain, x ∈ sec.map Prod.fst := by
  intro chain
  induction chain with
  | nil =>
    intro v h
    simp only [Links] at h
  | cons a rest ih =>
    intro v h x hx
    cases rest with
    | nil =>
      simp only [Links] at h
      have hx' : x = a := by simpa using hx
      subst hx'
      exact mem_keys_of_lookup_eq_some h
    | cons b rest' =>
      simp only [Links] at h
      obtain ⟨h1, h2⟩ := h
      rcases List.mem_cons.mp hx with hx | hx
      · subst hx
        exact mem_keys_of_lookup_eq_some h1
      · exact ih v h2 x hx

theorem resolveLoopC_chain (sec : AliasSection) :
    ∀ (rest : List String) (a v : String) (stack : List String) (n fuel : Nat),
      Links sec (a :: rest) v →
      strHasColon v = true →
      (∀ x ∈ a :: rest, strHasColon x = false) →
      (∀ x ∈ a :: rest, x ∉ stack) →
      (a :: rest).Nodup →
      rest.length < fuel →
      resolveLoopC (some sec) fuel stack a n = some (.ok v, n + rest.length + 1) := by
  intro rest
  induction rest with
  | nil =>
    intro a v stack n fuel hlinks hvc hcolon hstack hnd hfuel
    simp only [Links] at hlinks
    cases fuel with
    | zero => omega
    | succ fuel =>
      have hca : a ∉ stack := hstack a (by simp)
      simp [resolveLoopC, hca, hlinks, hvc]
  | cons b rest' ih =>
    intro a v stack n fuel hlinks hvc hcolon hstack hnd hfuel
    simp only [Links] at hlinks
    obtain ⟨h1, h2⟩ := hlinks
    cases fuel with
    | zero => omega
    | succ fuel =>
      have hca : a ∉ stack := hstack a (by simp)
      have hcb : strHasColon b = false := hcolon b (by simp)
      have hstep : resolveLoopC (some sec) (fuel + 1) stack a n =
          resolveLoopC (some sec) fuel (stack ++ [a]) b (n + 1) := by
        simp [resolveLoopC, hca, h1, hcb]
      have hcolon' : ∀ x ∈ b :: rest', strHasColon x = false := by
        intro x hx
        exact hcolon x (List.mem_cons_of_mem a hx)
      have hstack' : ∀ x ∈ b :: rest', x ∉ stack ++ [a] := by
        intro x hx hmem
        rcases List.mem_append.mp hmem with hm | hm
        · exact hstack x (List.mem_cons_of_mem a hx) hm
        · have hxa : x = a := by simpa using hm
          subst hxa
          exact (List.nodup_cons.mp hnd).1 hx
      have hnd' : (b :: rest').Nodup := (List.nodup_cons.mp hnd).2
      have hfuel' : rest'.length < fuel := by
        simp only [List.length_cons] at hfuel
        omega
      have harith : n + 1 + rest'.length + 1 = n + (b :: rest').length + 1 := by
        simp only [List.length_cons]
        omega
      rw [hstep, ih b v (stack ++ [a]) (n + 1) fuel h2 hvc hcolon' hstack' hnd' hfuel',
        harith]

/-! ## Claim theorems -/

/-- C5: on the §8 example section, `resolve("foo")`, `resolve("bar")`,
`resolve("bar2")` and `resolve("baz")` all succeed and return `"//:foo"`. -/
theorem example_aliases_resolve :
    resolve_alias (some exampleSection) "foo" = .ok "//:foo" ∧
    resolve_alias (some exampleSection) "bar" = .ok "//:foo" ∧
    resolve_alias (some exampleSection) "bar2" = .ok "//:foo" ∧
    resolve_alias (some exampleSection) "baz" = .ok "//:foo" :=
  ⟨rfl, rfl, rfl, rfl⟩

/-- C9: for every finite alias section and every input name, the
chain-following loop terminates: run with fuel `numAliasKeys + 1` (the fuel
`resolve_alias` uses), it always produces a result, because every iteration
either returns or appends a previously unvisited section key to the visited
chain, whose length is bounded by the number of keys. -/
theorem resolve_terminates_bounded (sec? : Option AliasSection) (a : String) :
    (resolveLoopF sec? (numAliasKeys sec? + 1) [] a).isSome = true :=
  resolveLoopF_isSome_of_le sec? (numAliasKeys sec? + 1) [] a List.nodup_nil
    (by intro x hx; cases hx) (by simp)

/-- C1 counterexample: for the section `{foo = //:foo}`, the chain `["foo"]`
is well-formed of length k = 1, resolution returns the terminal value, but it
performs exactly 1 section lookup — not k + 1 = 2 as the claim states. -/
theorem chain_lookup_count_counterexample :
    WFChain [("foo", "//:foo")] ["foo"] "//:foo" ∧
    (resolveAliasCount (some [("foo", "//:foo")]) "foo").1 = .ok "//:foo" ∧
    (resolveAliasCount (some [("foo", "//:foo")]) "foo").2 = 1 ∧
    ¬ (resolveAliasCount (some [("foo", "//:foo")]) "foo").2 =
        List.length ["foo"] + 1 := by
  refine ⟨⟨by decide, by decide, ?_, rfl⟩, rfl, rfl, by decide⟩
  simp only [Links]
  rfl

/-- C1 (amended): for every alias section and every well-formed acyclic chain
of length k (a sequence of k alias names each defined in the section, where
the value of the last one contains `:` and no earlier value does), resolve on
the first name of the chain terminates in exactly k lookups of the section
(not k + 1) and returns the terminal value. -/
theorem resolve_chain_lookup_count (sec : AliasSection) (a : String)
    (rest : List String) (v : String) (h : WFChain sec (a :: rest) v) :
    resolveAliasCount (some sec) a = (.ok v, (a :: rest).length) ∧
    resolve_alias (some sec) a = .ok v := by
  obtain ⟨hnd, hcolon, hlinks, hvc⟩ := h
  have hca : strHasColon a = false := hcolon a (by simp)
  have hmemkeys := links_mem_keys sec (a :: rest) v hlinks
  have hlen : (a :: rest).length ≤ numAliasKeys (some sec) := by
    have h2 := nodup_length_le_dedup (a :: rest) (sec.map Prod.fst) hnd hmemkeys
    simpa [numAliasKeys, aliasKeys] using h2
  have hfuel : rest.length < numAliasKeys (some sec) + 1 := by
    simp only [List.length_cons] at hlen
    omega
  have hrun := resolveLoopC_chain sec rest a v [] 0 (numAliasKeys (some sec) + 1)
    hlinks hvc hcolon (by intro x hx h0; cases h0) hnd hfuel
  have hmain : resolveAliasCount (some sec) a = (.ok v, 0 + rest.length + 1) :=
    resolveAliasCount_eq_of_loop hca hrun
  constructor
  · rw [hmain]
    simp [List.length_cons]
  · rw [← resolveAliasCount_fst, hmain]

/-- Witness for `resolve_chain_lookup_count`: the §8 chain
`bar2 -> bar -> foo` of length 3 resolves to `"//:foo"` in 3 lookups. -/
theorem resolve_chain_lookup_count_witness :
    WFChain exampleSection ["bar2", "bar", "foo"] "//:foo" ∧
    resolveAliasCount (some exampleSection) "bar2" = (.ok "//:foo", 3) := by
  have hwf : WFChain exampleSection ["bar2", "bar", "foo"] "//:foo" := by
    refine ⟨by decide, by decide, ?_, rfl⟩
    simp only [Links]
    exact ⟨rfl, rfl, rfl⟩
  refine ⟨hwf, ?_⟩
  have h := resolve_chain_lookup_count exampleSection "bar2" ["bar", "foo"] "//:foo" hwf
  simpa using h.1

/-- C2: whenever the current name is already in the visited chain, the loop
fails with `AliasCycle` carrying the visited chain in visitation order plus
the repeated name; a one-element self-cycle (`A` aliasing to `A`) fails with
`AliasCycle(["A"], "A")` on the second visit of `A`; on the §8 example,
`resolve("cycle1")` fails with `AliasCycle` and its rendered diagnostic
contains `cycle1 -> cycle2 -> cycle3 -> cycle1`. -/
theorem alias_cycle_detection :
    (∀ (sec? : Option AliasSection) (fuel : Nat) (stack : List String) (cur : String),
        cur ∈ stack →
        resolveLoopF sec? (fuel + 1) stack cur =
          some (.error (.AliasCycle stack cur))) ∧
    resolve_alias (some [("A", "A")]) "A" = .error (.AliasCycle ["A"] "A") ∧
    resolve_alias (some exampleSection) "cycle1" =
      .error (.AliasCycle ["cycle1", "cycle2", "cycle3"] "cycle1") ∧
    ContainsSubstr (renderError (.AliasCycle ["cycle1", "cycle2", "cycle3"] "cycle1"))
      "cycle1 -> cycle2 -> cycle3 -> cycle1" := by
  refine ⟨?_, rfl, rfl, ?_⟩
  · intro sec? fuel stack cur hc
    simp [resolveLoopF, hc]
  · exact ⟨"cycle detected in alias resolution [", "]", rfl⟩

/-- Witness for `alias_cycle_detection`: a concrete repeated visit. -/
theorem alias_cycle_detection_witness :
    resolveLoopF (some exampleSection) 1 ["x"] "x" =
      some (.error (.AliasCycle ["x"] "x")) :=
  alias_cycle_detection.1 (some exampleSection) 0 ["x"] "x" (by simp)

/-- C3: with no alias section at all, resolution of any name without `:`
fails with `MissingAliasSection`; when a name is undefined in a present
section after at least one alias has been followed, resolution fails with
`AliasChainBroken` carrying the visited chain followed by the undefined name;
on the §8 example, `resolve("chain1")` fails with `AliasChainBroken` and its
rendered diagnostic contains `chain1 -> chain2 -> chain3`. -/
theorem alias_chain_broken_and_missing :
    (∀ a : String, strHasColon a = false →
        resolve_alias none a = .error .MissingAliasSection) ∧
    (∀ (sec : AliasSection) (fuel : Nat) (stack : List String) (cur : String),
        cur ∉ stack → stack ≠ [] → List.lookup cur sec = none →
        resolveLoopF (some sec) (fuel + 1) stack cur =
          some (.error (.AliasChainBroken (stack ++ [cur])))) ∧
    resolve_alias (some exampleSection) "chain1" =
      .error (.AliasChainBroken ["chain1", "chain2", "chain3"]) ∧
    ContainsSubstr (renderError (.AliasChainBroken ["chain1", "chain2", "chain3"]))
      "chain1 -> chain2 -> chain3" := by
  refine ⟨?_, ?_, rfl, ?_⟩
  · intro a hcolon
    exact resolve_alias_eq_of_loop hcolon rfl
  · intro sec fuel stack cur hc hne hl
    have he : stack.isEmpty = false := by
      cases stack with
      | nil => exact absurd rfl hne
      | cons x xs => rfl
    simp [resolveLoopF, hc, hl, he]
  · exact ⟨"[alias] section produced a dangling chain: `", "`", rfl⟩

/-- Witness for `alias_chain_broken_and_missing`: concrete instances of the
missing-section and broken-chain cases. -/
theorem alias_chain_broken_and_missing_witness :
    resolve_alias none "w" = .error .MissingAliasSection ∧
    resolveLoopF (some exampleSection) 1 ["y"] "zzz" =
      some (.error (.AliasChainBroken ["y", "zzz"])) := by
  constructor
  · exact alias_chain_broken_and_missing.1 "w" rfl
  · have h := alias_chain_broken_and_missing.2.1 exampleSection 0 ["y"] "zzz"
      (by decide) (by decide) rfl
    simpa using h

/-- C4: `resolve` fails with `NotAnAlias` iff either the input name contains
`:` (failing before any section lookup, whatever the section is), or the
section is present and the very first lookup of the input name finds no
entry; on the §8 example, `resolve("missing")` fails with `NotAnAlias`. -/
theorem not_an_alias_iff :
    (∀ (sec? : Option AliasSection) (a : String),
        resolve_alias sec? a = .error .NotAnAlias ↔
          (strHasColon a = true ∨
            ∃ sec, sec? = some sec ∧ List.lookup a sec = none)) ∧
    resolve_alias (some exampleSection) "missing" = .error .NotAnAlias := by
  refine ⟨?_, rfl⟩
  intro sec? a
  constructor
  · intro h
    by_cases hcolon : strHasColon a = true
    · exact Or.inl hcolon
    · have hcf : strHasColon a = false := by
        cases hcb : strHasColon a
        · rfl
        · exact absurd hcb hcolon
      cases sec? with
      | none =>
        have hm : resolve_alias none a = .error .MissingAliasSection :=
          resolve_alias_eq_of_loop hcf rfl
        rw [hm] at h
        simp at h
      | some sec =>
        refine Or.inr ⟨sec, rfl, ?_⟩
        cases hl : List.lookup a sec with
        | none => rfl
        | some v =>
          exfalso
          cases hv : strHasColon v with
          | true =>
            have hok : resolve_alias (some sec) a = .ok v := by
              apply resolve_alias_eq_of_loop hcf
              simp [resolveLoopF, hl, hv]
            rw [hok] at h
            simp at h
          | false =>
            obtain ⟨r, hr⟩ := resolveLoopF_top_some (some sec) a
            have hres : resolve_alias (some sec) a = r :=
              resolve_alias_eq_of_loop hcf hr
            have hstep : resolveLoopF (some sec) (numAliasKeys (some sec) + 1) [] a =
                resolveLoopF (some sec) (numAliasKeys (some sec)) [a] v := by
              simp [resolveLoopF, hl, hv]
            rw [hstep] at hr
            have hne := resolveLoopF_ne_notAnAlias (some sec)
              (numAliasKeys (some sec)) [a] v (by simp)
            rw [hres] at h
            rw [h] at hr
            exact hne hr
  · intro h
    rcases h with hcolon | ⟨sec, hsec, hl⟩
    · rw [resolve_alias, if_pos hcolon]
    · subst hsec
      by_cases hcolon : strHasColon a = true
      · rw [resolve_alias, if_pos hcolon]
      · have hcf : strHasColon a = false := by
          cases hcb : strHasColon a
          · rfl
          · exact absurd hcb hcolon
        apply resolve_alias_eq_of_loop hcf
        simp [resolveLoopF, hl]

/-- Witness for `not_an_alias_iff`: a name undefined in the example section. -/
theorem not_an_alias_iff_witness :
    resolve_alias (some exampleSection) "nope" = .error .NotAnAlias :=
  (not_an_alias_iff.1 (some exampleSection) "nope").mpr
    (Or.inr ⟨exampleSection, rfl, rfl⟩)

theorem sectionCompare_iff (x y : AliasSection) :
    sectionCompare x y = true ↔ ∀ k, List.lookup k x = List.lookup k y := by
  constructor
  · intro h k
    rw [sectionCompare, List.all_eq_true] at h
    by_cases hx : k ∈ x.map Prod.fst
    · have hk := h k (List.mem_append.mpr (Or.inl hx))
      simpa using hk
    · by_cases hy : k ∈ y.map Prod.fst
      · have hk := h k (List.mem_append.mpr (Or.inr hy))
        simpa using hk
      · rw [(lookup_eq_none_iff_not_mem_keys x k).mpr hx,
          (lookup_eq_none_iff_not_mem_keys y k).mpr hy]
  · intro h
    rw [sectionCompare, List.all_eq_true]
    intro k _
    simp [h k]

/-- C6: two resolver instances compare equal iff the alias sections of their
underlying configurations are equal (both absent, or both present with equal
content); changing a configuration anywhere outside the alias section leaves
the comparison unchanged, and a present section never equals an absent one. -/
theorem resolver_equality_alias_only (c₁ c₂ : LegacyBuckConfig) :
    (resolverEq ⟨c₁⟩ ⟨c₂⟩ = true ↔
      SectionEquiv (c₁.get_section "alias") (c₂.get_section "alias")) ∧
    (∀ c₁' : LegacyBuckConfig,
      c₁.get_section "alias" = c₁'.get_section "alias" →
      resolverEq ⟨c₁⟩ ⟨c₂⟩ = resolverEq ⟨c₁'⟩ ⟨c₂⟩) := by
  constructor
  · cases h1 : c₁.get_section "alias" with
    | none =>
      cases h2 : c₂.get_section "alias" with
      | none => simp [resolverEq, h1, h2, SectionEquiv]
      | some s2 => simp [resolverEq, h1, h2, SectionEquiv]
    | some s1 =>
      cases h2 : c₂.get_section "alias" with
      | none => simp [resolverEq, h1, h2, SectionEquiv]
      | some s2 =>
        simp only [resolverEq, h1, h2, SectionEquiv]
        exact sectionCompare_iff s1 s2
  · intro c₁' heq
    simp only [resolverEq]
    rw [heq]

/-- Witness for `resolver_equality_alias_only`: two configurations differing
only outside the alias section produce equal resolvers. -/
theorem resolver_equality_alias_only_witness :
    resolverEq ⟨⟨[("alias", [("a", "//:a")]), ("other", [("x", "1")])]⟩⟩
      ⟨⟨[("alias", [("a", "//:a")]), ("other", [("x", "2")])]⟩⟩ = true :=
  (resolver_equality_alias_only
      ⟨[("alias", [("a", "//:a")]), ("other", [("x", "1")])]⟩
      ⟨[("alias", [("a", "//:a")]), ("other", [("x", "2")])]⟩).1.mpr
    (by intro k; rfl)

/-- C7: the public `get` returns `Ok(None)` exactly when resolution fails
with `MissingAliasSection` or `NotAnAlias`, `Ok(Some(t))` exactly when
resolution succeeds with `t`, and an error exactly when resolution fails with
`AliasChainBroken` or `AliasCycle`, in which case the error is wrapped with
contextual text identifying the originally requested name. -/
theorem get_propagation_policy (r : BuckConfigTargetAliasResolver) (name : String) :
    (TargetAliasResolver.get r name = .okNone ↔
      (r.resolveAlias name = .error .MissingAliasSection ∨
        r.resolveAlias name = .error .NotAnAlias)) ∧
    (∀ t, TargetAliasResolver.get r name = .okSome t ↔
      r.resolveAlias name = .ok t) ∧
    (∀ c e, TargetAliasResolver.get r name = .errWrapped c e ↔
      (r.resolveAlias name = .error e ∧
        c = "Error resolving alias `" ++ name ++ "`" ∧
        ((∃ chain, e = .AliasChainBroken chain) ∨
          (∃ chain repeated, e = .AliasCycle chain repeated)))) := by
  cases hres : r.resolveAlias name with
  | ok a =>
    refine ⟨?_, ?_, ?_⟩ <;> simp [TargetAliasResolver.get, hres]
  | error e =>
    cases e with
    | MissingAliasSection =>
      refine ⟨?_, ?_, ?_⟩ <;> simp [TargetAliasResolver.get, hres]
    | NotAnAlias =>
      refine ⟨?_, ?_, ?_⟩ <;> simp [TargetAliasResolver.get, hres]
    | AliasChainBroken chain =>
      refine ⟨?_, ?_, ?_⟩ <;> simp [TargetAliasResolver.get, hres]
      intro c e
      constructor
      · intro h
        obtain ⟨hc, he⟩ := h
        exact ⟨by rw [← he], by rw [← hc], Or.inl ⟨chain, by rw [← he]⟩⟩
      · intro ⟨he, hc, _⟩
        exact ⟨hc.symm, he⟩
    | AliasCycle chain repeated =>
      refine ⟨?_, ?_, ?_⟩ <;> simp [TargetAliasResolver.get, hres]
      intro c e
      constructor
      · intro h
        obtain ⟨hc, he⟩ := h
        exact ⟨by rw [← he], by rw [← hc], Or.inr ⟨chain, repeated, by rw [← he]⟩⟩
      · intro ⟨he, hc, _⟩
        exact ⟨hc.symm, he⟩

/-- Witness for `get_propagation_policy`: on the §8 example configuration,
`get("chain1")` returns the wrapped broken-chain error with the context
naming the requested alias. -/
theorem get_propagation_policy_witness :
    TargetAliasResolver.get ⟨⟨[("alias", exampleSection)]⟩⟩ "chain1" =
      .errWrapped "Error resolving alias `chain1`"
        (.AliasChainBroken ["chain1", "chain2", "chain3"]) :=
  ((get_propagation_policy ⟨⟨[("alias", exampleSection)]⟩⟩ "chain1").2.2
      "Error resolving alias `chain1`"
      (.AliasChainBroken ["chain1", "chain2", "chain3"])).mpr
    ⟨rfl, rfl, Or.inl ⟨["chain1", "chain2", "chain3"], rfl⟩⟩

/-- C10: the cache-key equality used for invalidation propagation returns
true only when both cached values are successful resolvers comparing equal;
whenever either value is a failure — including two identical failures — it
returns false, so a failed computation always counts as changed. -/
theorem key_equality_rejects_failures (ε : Type)
    (x y : Except ε BuckConfigTargetAliasResolver) :
    (TargetAliasResolverKey.equality x y = true ↔
      ∃ a b, x = .ok a ∧ y = .ok b ∧ resolverEq a b = true) ∧
    (∀ e : ε, TargetAliasResolverKey.equality
      (Except.error e) (Except.error e : Except ε BuckConfigTargetAliasResolver) = false) := by
  constructor
  · cases x with
    | ok a =>
      cases y with
      | ok b => simp [TargetAliasResolverKey.equality]
      | error e => simp [TargetAliasResolverKey.equality]
    | error e => cases y <;> simp [TargetAliasResolverKey.equality]
  · intro e
    rfl

/-- Witness for `key_equality_rejects_failures`: two identical failures
compare as changed. -/
theorem key_equality_rejects_failures_witness :
    TargetAliasResolverKey.equality (Except.error ())
      (Except.error () : Except Unit BuckConfigTargetAliasResolver) = false :=
  (key_equality_rejects_failures Unit (Except.error ()) (Except.error ())).2 ()
